import Mathlib

/-!
Verification of the Marco Mode note-inbox plugin (`src/main.ts`).

The plugin's logic is embedded shallowly:
  * A JavaScript `Date` is modelled by its epoch-day number (an `Int`,
    days since 1970-01-01); `Date.prototype.getDay` becomes `getDay`
    (1970-01-01 was a Thursday, weekday 4, Sunday = 0), and
    `setDate (getDate () + k)` becomes addition of `k` days.
  * `toISOString().split('T')[0]` is modelled by `isoString`, built from
    the standard civil-calendar/epoch-day conversion.
  * The host vault is a finite map from path to content, as an
    association list; `create` fails (returns `none`) when the path is
    taken, mirroring `vault.create` throwing.
  * Notices are collected as a list of strings.
-/

/-- `String.prototype.toLowerCase`, modelled character-by-character
(structurally over the character list, so it evaluates by `decide`). -/
def strToLower (s : String) : String := ⟨s.data.map Char.toLower⟩

/-- `String.prototype.trim`: drop leading and trailing whitespace. -/
def strTrim (s : String) : String :=
  ⟨((s.data.dropWhile Char.isWhitespace).reverse.dropWhile Char.isWhitespace).reverse⟩

/-- `String.prototype.startsWith`. -/
def strStartsWith (s p : String) : Bool := s.data.take p.data.length == p.data

/-- Drop the first `n` characters of a string (the remainder captured by
a regular-expression group such as `^this (.+)$`). -/
def strDrop (s : String) (n : Nat) : String := ⟨s.data.drop n⟩

/-- Weekday names as in `parseDateString` (`src/main.ts` line 435);
the index of a name is its JavaScript `getDay` number (Sunday = 0). -/
def days : List String :=
  ["sunday", "monday", "tuesday", "wednesday", "thursday", "friday", "saturday"]

/-- `Date.prototype.getDay` on the date with epoch-day number `d`:
1970-01-01 (day 0) was a Thursday, so the weekday is `(d + 4) mod 7`,
with Sunday = 0. -/
def getDay (d : Int) : Int := (d + 4) % 7

/-- The date-computing core of `DateSuggestModal.parseDateString`
(`src/main.ts` lines 417-465): lower-case and trim the input, handle the
three basic phrases, then the `this <day>` / `last <day>` patterns
(`^this (.+)$` requires a non-empty remainder, hence the length check);
`none` stands for the branches that return the input string unchanged. -/
def parseDate (today : Int) (input : String) : Option Int :=
  let text := strTrim (strToLower input)
  if text = "today" then some today
  else if text = "yesterday" then some (today - 1)
  else if text = "tomorrow" then some (today + 1)
  else if strStartsWith text "this " && decide (5 < text.length) then
    match days.findIdx? (fun d => d == strDrop text 5) with
    | some targetDay =>
      let todayDay := getDay today
      let daysAhead := ((targetDay : Int) - todayDay + 7) % 7
      some (today + daysAhead)
    | none => none
  else if strStartsWith text "last " && decide (5 < text.length) then
    match days.findIdx? (fun d => d == strDrop text 5) with
    | some targetDay =>
      let todayDay := getDay today
      let daysBehind := (todayDay - (targetDay : Int) + 7) % 7
      let daysToSubtract := if daysBehind = 0 then 7 else daysBehind
      some (today - daysToSubtract)
    | none => none
  else none

/-- Epoch-day number of the civil date `y-m-d` (proleptic Gregorian),
the standard `days_from_civil` algorithm; models the calendar the host
`Date` object implements. -/
def daysFromCivil (y m d : Int) : Int :=
  let y2 := if m ≤ 2 then y - 1 else y
  let era := (if 0 ≤ y2 then y2 else y2 - 399) / 400
  let yoe := y2 - era * 400
  let doy := (153 * (m + (if 2 < m then -3 else 9)) + 2) / 5 + d - 1
  let doe := yoe * 365 + yoe / 4 - yoe / 100 + doy
  era * 146097 + doe - 719468

/-- Civil date `(y, m, d)` of an epoch-day number, the standard
`civil_from_days` algorithm, inverse of `daysFromCivil`. -/
def civilFromDays (z : Int) : Int × Int × Int :=
  let z2 := z + 719468
  let era := (if 0 ≤ z2 then z2 else z2 - 146096) / 146097
  let doe := z2 - era * 146097
  let yoe := (doe - doe / 1460 + doe / 36524 - doe / 146096) / 365
  let y := yoe + era * 400
  let doy := doe - (365 * yoe + yoe / 4 - yoe / 100)
  let mp := (5 * doy + 2) / 153
  let d := doy - (153 * mp + 2) / 5 + 1
  let m := mp + (if mp < 10 then 3 else -9)
  (if m ≤ 2 then y + 1 else y, m, d)

/-- Zero-padded two-digit rendering of a month or day number. -/
def pad2 (n : Int) : String := if n < 10 then "0" ++ toString n else toString n

/-- `date.toISOString().split('T')[0]` for the date with epoch-day
number `z`: the `YYYY-MM-DD` rendering of its civil date. -/
def isoString (z : Int) : String :=
  let c := civilFromDays z
  toString c.1 ++ "-" ++ pad2 c.2.1 ++ "-" ++ pad2 c.2.2

/-- `DateSuggestModal.parseDateString` itself: on the recognised phrases
it returns the ISO rendering of the computed date, on anything else the
input unchanged. -/
def parseDateString (today : Int) (input : String) : String :=
  match parseDate today input with
  | some d => isoString d
  | none => input

/-- Arithmetic core of the `this <day>` branch: adding
`(t - getDay today + 7) mod 7` days lands on weekday `t`, within 0-6
days ahead, and exactly on `today` when `t` is today's weekday. -/
theorem thisOffset_props (today t : Int) (h0 : 0 ≤ t) (h7 : t < 7) :
    getDay (today + (t - getDay today + 7) % 7) = t ∧
    today ≤ today + (t - getDay today + 7) % 7 ∧
    today + (t - getDay today + 7) % 7 ≤ today + 6 ∧
    (getDay today = t → today + (t - getDay today + 7) % 7 = today) := by
  unfold getDay
  refine ⟨?_, ?_, ?_, ?_⟩ <;> omega

/-- Arithmetic core of the `last <day>` branch: subtracting
`(getDay today - t + 7) mod 7` days (with `0` replaced by `7`) lands on
weekday `t`, strictly in the past, 1-7 days ago, and exactly 7 days ago
when `t` is today's weekday. -/
theorem lastOffset_props (today t : Int) (h0 : 0 ≤ t) (h7 : t < 7) :
    getDay (today -
      (if (getDay today - t + 7) % 7 = 0 then 7 else (getDay today - t + 7) % 7)) = t ∧
    today - 7 ≤ today -
      (if (getDay today - t + 7) % 7 = 0 then 7 else (getDay today - t + 7) % 7) ∧
    today - (if (getDay today - t + 7) % 7 = 0 then 7 else (getDay today - t + 7) % 7)
      ≤ today - 1 ∧
    (getDay today = t →
      today - (if (getDay today - t + 7) % 7 = 0 then 7 else (getDay today - t + 7) % 7)
        = today - 7) := by
  unfold getDay
  by_cases h : (today + 4) % 7 - t + 7 = ((today + 4) % 7 - t + 7) / 7 * 7 <;>
    refine ⟨?_, ?_, ?_, ?_⟩ <;> omega

/-- C1: for every weekday name `w` (the `k`-th entry of the canonical
Sunday-first list), `parseDate today ("this " ++ w)` returns the date at
offset `(k - getDay today + 7) mod 7` from today; its weekday is `k`, it
is on or after today, at most 6 days ahead, and it equals today itself
when `k` is today's weekday. -/
theorem parse_this_weekday (today : Int) (w : String) (k : Nat)
    (hw : days[k]? = some w) :
    ∃ d : Int,
      parseDate today ("this " ++ w) = some d ∧
      getDay d = (k : Int) ∧
      d = today + (((k : Int) - getDay today + 7) % 7) ∧
      today ≤ d ∧ d ≤ today + 6 ∧
      (getDay today = (k : Int) → d = today) := by
  have hk : k < 7 := by
    by_contra hge
    rw [List.getElem?_eq_none (by simpa [days] using Nat.le_of_not_lt hge)] at hw
    exact Option.noConfusion hw
  interval_cases k
  · obtain rfl : "sunday" = w := by simpa [days] using hw
    obtain ⟨h1, h2, h3, h4⟩ := thisOffset_props today 0 (by decide) (by decide)
    exact ⟨_, rfl, h1, rfl, h2, h3, h4⟩
  · obtain rfl : "monday" = w := by simpa [days] using hw
    obtain ⟨h1, h2, h3, h4⟩ := thisOffset_props today 1 (by decide) (by decide)
    exact ⟨_, rfl, h1, rfl, h2, h3, h4⟩
  · obtain rfl : "tuesday" = w := by simpa [days] using hw
    obtain ⟨h1, h2, h3, h4⟩ := thisOffset_props today 2 (by decide) (by decide)
    exact ⟨_, rfl, h1, rfl, h2, h3, h4⟩
  · obtain rfl : "wednesday" = w := by simpa [days] using hw
    obtain ⟨h1, h2, h3, h4⟩ := thisOffset_props today 3 (by decide) (by decide)
    exact ⟨_, rfl, h1, rfl, h2, h3, h4⟩
  · obtain rfl : "thursday" = w := by simpa [days] using hw
    obtain ⟨h1, h2, h3, h4⟩ := thisOffset_props today 4 (by decide) (by decide)
    exact ⟨_, rfl, h1, rfl, h2, h3, h4⟩
  · obtain rfl : "friday" = w := by simpa [days] using hw
    obtain ⟨h1, h2, h3, h4⟩ := thisOffset_props today 5 (by decide) (by decide)
    exact ⟨_, rfl, h1, rfl, h2, h3, h4⟩
  · obtain rfl : "saturday" = w := by simpa [days] using hw
    obtain ⟨h1, h2, h3, h4⟩ := thisOffset_props today 6 (by decide) (by decide)
    exact ⟨_, rfl, h1, rfl, h2, h3, h4⟩

/-- C1 witness: `this monday` on 2024-03-15 (a Friday, epoch day 19797). -/
theorem parse_this_weekday_witness :
    ∃ d : Int,
      parseDate 19797 ("this " ++ "monday") = some d ∧
      getDay d = ((1 : Nat) : Int) ∧
      d = 19797 + ((((1 : Nat) : Int) - getDay 19797 + 7) % 7) ∧
      (19797 : Int) ≤ d ∧ d ≤ 19797 + 6 ∧
      (getDay 19797 = ((1 : Nat) : Int) → d = 19797) :=
  parse_this_weekday 19797 "monday" 1 (by decide)

/-- C2: for every weekday name `w` (the `k`-th entry of the canonical
Sunday-first list), `parseDate today ("last " ++ w)` returns the date at
offset `(getDay today - k + 7) mod 7` days back, with `0` replaced by
`7`; its weekday is `k`, it lies strictly before today, between 1 and 7
days ago, and it is exactly 7 days ago when `k` is today's weekday. -/
theorem parse_last_weekday (today : Int) (w : String) (k : Nat)
    (hw : days[k]? = some w) :
    ∃ d : Int,
      parseDate today ("last " ++ w) = some d ∧
      getDay d = (k : Int) ∧
      d = today - (if (getDay today - (k : Int) + 7) % 7 = 0 then 7
                   else (getDay today - (k : Int) + 7) % 7) ∧
      today - 7 ≤ d ∧ d ≤ today - 1 ∧
      (getDay today = (k : Int) → d = today - 7) := by
  have hk : k < 7 := by
    by_contra hge
    rw [List.getElem?_eq_none (by simpa [days] using Nat.le_of_not_lt hge)] at hw
    exact Option.noConfusion hw
  interval_cases k
  · obtain rfl : "sunday" = w := by simpa [days] using hw
    obtain ⟨h1, h2, h3, h4⟩ := lastOffset_props today 0 (by decide) (by decide)
    exact ⟨_, rfl, h1, rfl, h2, h3, h4⟩
  · obtain rfl : "monday" = w := by simpa [days] using hw
    obtain ⟨h1, h2, h3, h4⟩ := lastOffset_props today 1 (by decide) (by decide)
    exact ⟨_, rfl, h1, rfl, h2, h3, h4⟩
  · obtain rfl : "tuesday" = w := by simpa [days] using hw
    obtain ⟨h1, h2, h3, h4⟩ := lastOffset_props today 2 (by decide) (by decide)
    exact ⟨_, rfl, h1, rfl, h2, h3, h4⟩
  · obtain rfl : "wednesday" = w := by simpa [days] using hw
    obtain ⟨h1, h2, h3, h4⟩ := lastOffset_props today 3 (by decide) (by decide)
    exact ⟨_, rfl, h1, rfl, h2, h3, h4⟩
  · obtain rfl : "thursday" = w := by simpa [days] using hw
    obtain ⟨h1, h2, h3, h4⟩ := lastOffset_props today 4 (by decide) (by decide)
    exact ⟨_, rfl, h1, rfl, h2, h3, h4⟩
  · obtain rfl : "friday" = w := by simpa [days] using hw
    obtain ⟨h1, h2, h3, h4⟩ := lastOffset_props today 5 (by decide) (by decide)
    exact ⟨_, rfl, h1, rfl, h2, h3, h4⟩
  · obtain rfl : "saturday" = w := by simpa [days] using hw
    obtain ⟨h1, h2, h3, h4⟩ := lastOffset_props today 6 (by decide) (by decide)
    exact ⟨_, rfl, h1, rfl, h2, h3, h4⟩

/-- C2 witness: `last friday` on 2024-03-15, itself a Friday, lands
exactly 7 days back. -/
theorem parse_last_weekday_witness :
    ∃ d : Int,
      parseDate 19797 ("last " ++ "friday") = some d ∧
      getDay d = ((5 : Nat) : Int) ∧
      d = 19797 - (if (getDay 19797 - ((5 : Nat) : Int) + 7) % 7 = 0 then 7
                   else (getDay 19797 - ((5 : Nat) : Int) + 7) % 7) ∧
      (19797 : Int) - 7 ≤ d ∧ d ≤ 19797 - 1 ∧
      (getDay 19797 = ((5 : Nat) : Int) → d = 19797 - 7) :=
  parse_last_weekday 19797 "friday" 5 (by decide)

/-- C7: `today`, `yesterday` and `tomorrow` parse to the current date,
the day before, and the day after, for every current date; on system
date 2024-03-15 (epoch day `daysFromCivil 2024 3 15`) the full
`parseDateString` renders them as `2024-03-15`, `2024-03-14` and
`2024-03-16`. -/
theorem parse_basic_dates (today : Int) :
    parseDate today "today" = some today ∧
    parseDate today "yesterday" = some (today - 1) ∧
    parseDate today "tomorrow" = some (today + 1) ∧
    parseDateString (daysFromCivil 2024 3 15) "today" = "2024-03-15" ∧
    parseDateString (daysFromCivil 2024 3 15) "yesterday" = "2024-03-14" ∧
    parseDateString (daysFromCivil 2024 3 15) "tomorrow" = "2024-03-16" := by
  refine ⟨rfl, rfl, rfl, ?_, ?_, ?_⟩ <;> decide

/-- A host vault file (`TFile`): parent-folder path (`none` for a file
outside every folder, matching the falsy `file.parent` check), filename
with extension, and the extension alone. -/
structure VFile where
  parent : Option String
  name : String
  extension : String
deriving DecidableEq

/-- The full vault path of a file, `parent/name`. -/
def VFile.path (f : VFile) : String :=
  match f.parent with
  | some p => p ++ "/" ++ f.name
  | none => f.name

/-- Path built from a parent folder and a filename, exactly as both
rename operations build `newPath`:
`file.parent ? parent.path + "/" + newName : newName`. -/
def pathInParent (parent : Option String) (newName : String) : String :=
  match parent with
  | some p => p ++ "/" ++ newName
  | none => newName

/-- The literal marker `markFileAsRead` prepends to a filename. -/
def readMarker : String := "(READ) "

/-- Outcome of `markFileAsRead` on a validated inbox file
(`src/main.ts` lines 92-107): either the already-marked notice with no
rename, or a rename to the computed new path. -/
inductive MarkReadResult where
  | alreadyMarked
  | renamedTo (newPath : String)
deriving DecidableEq

/-- `MarcoModePlugin.markFileAsRead`, after `validateInboxFile`
succeeded: report already-marked when the name starts with `"(READ) "`,
otherwise rename to the same parent folder with the marker prepended. -/
def markFileAsRead (f : VFile) : MarkReadResult :=
  if strStartsWith f.name readMarker then .alreadyMarked
  else .renamedTo (pathInParent f.parent (readMarker ++ f.name))

/-- The new path `MarcoModePlugin.snoozeFile` renames a validated inbox
file to (`src/main.ts` lines 113-115): the formatted timestamp is taken
as a parameter, since it comes from the host clock and `moment`. -/
def snoozeNewPath (f : VFile) (timestamp : String) : String :=
  pathInParent f.parent (timestamp ++ " (snoozed)." ++ f.extension)

/-- C8: `markFileAsRead` is idempotent by inspection: a file whose name
already starts with `"(READ) "` is reported already-marked with no
rename; any other file is renamed by prepending `"(READ) "` to its
filename, and the resulting name starts with the marker, so a second
application would report already-marked. -/
theorem markAsRead_idempotent (f : VFile) :
    (strStartsWith f.name readMarker = true → markFileAsRead f = .alreadyMarked) ∧
    (strStartsWith f.name readMarker = false →
      markFileAsRead f = .renamedTo (pathInParent f.parent (readMarker ++ f.name)) ∧
      strStartsWith (readMarker ++ f.name) readMarker = true) := by
  constructor
  · intro h
    simp [markFileAsRead, h]
  · intro h
    refine ⟨by simp [markFileAsRead, h], ?_⟩
    simp [strStartsWith, readMarker, String.data_append, List.take_append]

/-- C8 witness: `x.md` is renamed to `(READ) x.md`; `(READ) x.md` is a
no-op reported as already marked. -/
theorem markAsRead_idempotent_witness :
    markFileAsRead ⟨some "000_inbox", "x.md", "md"⟩
      = .renamedTo "000_inbox/(READ) x.md" ∧
    markFileAsRead ⟨some "000_inbox", "(READ) x.md", "md"⟩ = .alreadyMarked := by
  constructor
  · have h := (markAsRead_idempotent ⟨some "000_inbox", "x.md", "md"⟩).2 (by decide)
    simpa using h.1
  · exact (markAsRead_idempotent ⟨some "000_inbox", "(READ) x.md", "md"⟩).1 (by decide)

/-- C10: both rename operations keep the note in its original parent
folder: each computed new path is `pathInParent f.parent newName` for
the respective new filename, so the parent-folder component is reused
unchanged and only the filename differs. -/
theorem renames_preserve_parent (f : VFile) (timestamp newPath : String) :
    (markFileAsRead f = .renamedTo newPath →
      newPath = pathInParent f.parent (readMarker ++ f.name)) ∧
    snoozeNewPath f timestamp
      = pathInParent f.parent (timestamp ++ " (snoozed)." ++ f.extension) := by
  constructor
  · intro h
    by_cases hm : strStartsWith f.name readMarker
    · simp [markFileAsRead, hm] at h
    · simp [markFileAsRead, hm] at h
      simp [h]
  · rfl

/-- C10 witness: concrete check for a file in `000_inbox`. -/
theorem renames_preserve_parent_witness :
    ("000_inbox/(READ) x.md" : String)
        = pathInParent (some "000_inbox") (readMarker ++ "x.md") ∧
    snoozeNewPath ⟨some "000_inbox", "x.md", "md"⟩ "Tue 09 41 00"
        = pathInParent (some "000_inbox") ("Tue 09 41 00" ++ " (snoozed)." ++ "md") := by
  constructor
  · exact (renames_preserve_parent ⟨some "000_inbox", "x.md", "md"⟩ "Tue 09 41 00"
      "000_inbox/(READ) x.md").1 (by decide)
  · exact (renames_preserve_parent ⟨some "000_inbox", "x.md", "md"⟩ "Tue 09 41 00"
      "000_inbox/(READ) x.md").2

/-- Lexicographic code-point comparison of character lists; models the
ascending order induced by the `(a, b) => a.name.localeCompare(b.name)`
comparator (plain lexicographic, not numeric-aware). -/
def lexLe : List Char → List Char → Bool
  | [], _ => true
  | _ :: _, [] => false
  | a :: as, b :: bs =>
    if a < b then true
    else if b < a then false
    else lexLe as bs

/-- `lexLe` is total: of two character lists, one is `lexLe` the other. -/
theorem lexLe_total : ∀ as bs : List Char, (lexLe as bs || lexLe bs as) = true
  | [], _ => by simp [lexLe]
  | _ :: _, [] => by simp [lexLe]
  | a :: as, b :: bs => by
    simp only [lexLe]
    by_cases h1 : a < b
    · simp [h1]
    · by_cases h2 : b < a
      · simp [h1, h2]
      · simpa [h1, h2] using lexLe_total as bs

/-- `lexLe` is transitive. -/
theorem lexLe_trans : ∀ as bs cs : List Char,
    lexLe as bs = true → lexLe bs cs = true → lexLe as cs = true
  | [], _, _, _, _ => by simp [lexLe]
  | _ :: _, [], _, h1, _ => by simp [lexLe] at h1
  | _ :: _, _ :: _, [], _, h2 => by simp [lexLe] at h2
  | a :: as, b :: bs, c :: cs, h1, h2 => by
    simp only [lexLe] at h1 h2 ⊢
    rcases lt_trichotomy a b with hab | hab | hab
    · rcases lt_trichotomy b c with hbc | hbc | hbc
      · simp [lt_trans hab hbc]
      · subst hbc; simp [hab]
      · rw [if_neg (lt_asymm hbc), if_pos hbc] at h2; exact absurd h2 (by simp)
    · subst hab
      simp only [lt_irrefl, if_neg, ite_false] at h1
      rcases lt_trichotomy a c with hac | hac | hac
      · simp [hac]
      · subst hac
        simp only [lt_irrefl, if_neg, ite_false] at h2 ⊢
        exact lexLe_trans as bs cs h1 h2
      · rw [if_neg (lt_asymm hac), if_pos hac] at h2; exact absurd h2 (by simp)
    · rw [if_neg (lt_asymm hab), if_pos hab] at h1; exact absurd h1 (by simp)

/-- The sort comparator of `goToNextInboxNote`, `mergeInboxNotes` and
`performMerge`: ascending by `name`. -/
def nameLe (a b : VFile) : Bool := lexLe a.name.data b.name.data

/-- `files.sort((a, b) => a.name.localeCompare(b.name))`: sort the files
by name, ascending (a stable structural sort). -/
def sortByName (fs : List VFile) : List VFile :=
  List.insertionSort (fun a b => nameLe a b = true) fs

instance : IsTrans VFile (fun a b => nameLe a b = true) :=
  ⟨fun a b c => lexLe_trans a.name.data b.name.data c.name.data⟩

instance : IsTotal VFile (fun a b => nameLe a b = true) :=
  ⟨fun a b => by simpa [nameLe, Bool.or_eq_true] using lexLe_total a.name.data b.name.data⟩

/-- `MarcoModePlugin.isInInbox` (`src/main.ts` lines 87-90): the parent
folder path (or `''` when absent) equals the inbox folder, or the full
path starts with `inboxFolder ++ "/"`. -/
def isInInbox (inboxFolder : String) (f : VFile) : Bool :=
  (f.parent.getD "") == inboxFolder || strStartsWith f.path (inboxFolder ++ "/")

/-- `MarcoModePlugin.goToNextInboxNote` (`src/main.ts` lines 72-81),
reduced to its selection logic: `files` are the inbox files; the result
is the file the command opens, or `none` when the inbox is empty (the
`No files found` notice). `currentIndex` is `-1` unless there is an
active file that is in the inbox, in which case it is `findIndex` by
path over the sorted array. -/
def goToNextInboxNote (inboxFolder : String) (files : List VFile)
    (active : Option VFile) : Option VFile :=
  let sorted := sortByName files
  if sorted.length = 0 then none
  else
    let currentIndex : Int :=
      match active with
      | some a =>
        if isInInbox inboxFolder a then
          match sorted.findIdx? (fun f => f.path == a.path) with
          | some i => (i : Int)
          | none => -1
        else -1
      | none => -1
    sorted[((currentIndex + 1) % (sorted.length : Int)).toNat]?

/-- C3: next-note navigation sorts the inbox by name ascending under the
plain lexicographic comparator (the sorted list is an ordered
permutation of the inbox); with no active note, or an active note
outside the inbox, it opens the first sorted note, and with an active
note at sorted index `i` it opens the note at index `(i + 1) mod count`,
wrapping from the last note to the first. -/
theorem goToNext_spec (inboxFolder : String) (files : List VFile)
    (active : Option VFile) (hne : files ≠ []) :
    List.Pairwise (fun a b => nameLe a b = true) (sortByName files) ∧
    (sortByName files).Perm files ∧
    ((active = none ∨ ∃ a, active = some a ∧ isInInbox inboxFolder a = false) →
      goToNextInboxNote inboxFolder files active = (sortByName files).head?) ∧
    (∀ a i, active = some a → isInInbox inboxFolder a = true →
      (sortByName files).findIdx? (fun f => f.path == a.path) = some i →
      goToNextInboxNote inboxFolder files active
        = (sortByName files)[(i + 1) % (sortByName files).length]?) := by
  have hperm : (sortByName files).Perm files :=
    List.perm_insertionSort (fun a b => nameLe a b = true) files
  have hlen : (sortByName files).length ≠ 0 := by
    rw [hperm.length_eq]
    simpa using hne
  have harith : ((-1 + 1 : Int) % ((sortByName files).length : Int)).toNat = 0 := by
    rw [show (-1 + 1 : Int) = 0 by norm_num, Int.zero_emod]
    rfl
  refine ⟨?_, hperm, ?_, ?_⟩
  · exact List.sorted_insertionSort (fun a b => nameLe a b = true) files
  · intro hcase
    have hidx : goToNextInboxNote inboxFolder files active
        = (sortByName files)[(0 : Nat)]? := by
      rcases hcase with h | ⟨a, ha, hnin⟩
      · subst h
        simp only [goToNextInboxNote, if_neg hlen]
        rw [harith]
      · subst ha
        simp only [goToNextInboxNote, if_neg hlen]
        rw [if_neg (by simp [hnin]), harith]
    rw [hidx, List.head?_eq_getElem?]
  · intro a i ha hin hfind
    subst ha
    simp only [goToNextInboxNote, if_neg hlen, hin, if_pos, hfind]
    congr 1

/-- C3 witness: on the inbox `b.md, a.md, c.md` with no active note the
command opens `a.md`, the first note in sorted order. -/
theorem goToNext_spec_witness :
    goToNextInboxNote "000_inbox"
      [⟨some "000_inbox", "b.md", "md"⟩, ⟨some "000_inbox", "a.md", "md"⟩,
       ⟨some "000_inbox", "c.md", "md"⟩] none
      = some ⟨some "000_inbox", "a.md", "md"⟩ := by
  have h := (goToNext_spec "000_inbox"
      [⟨some "000_inbox", "b.md", "md"⟩, ⟨some "000_inbox", "a.md", "md"⟩,
       ⟨some "000_inbox", "c.md", "md"⟩] none (by decide)).2.2.1 (Or.inl rfl)
  rw [h]
  decide

/-- The host vault, a finite map from full path to file content,
represented as an association list (first entry wins). -/
abbrev Vault := List (String × String)

/-- `vault.getAbstractFileByPath` combined with reading the content:
`some content` when a file exists at the path, else `none`. -/
def Vault.get? (v : Vault) (p : String) : Option String :=
  (v.find? (fun e => e.1 == p)).map (fun e => e.2)

/-- `vault.create(path, content)`: fails (`none`) when a file already
exists at the path, as the host call throws in that case. -/
def Vault.create (v : Vault) (p c : String) : Option Vault :=
  if (v.get? p).isSome then none else some ((p, c) :: v)

/-- `vault.modify(file, content)`: replace the content at a path. -/
def Vault.modify (v : Vault) (p c : String) : Vault :=
  v.map (fun e => if e.1 == p then (p, c) else e)

/-- `vault.delete(file)`: remove the entry at a path. -/
def Vault.delete (v : Vault) (p : String) : Vault :=
  v.filter (fun e => e.1 != p)

/-- `vault.read(file)` for a file known to exist (`""` backstop). -/
def vaultRead (v : Vault) (p : String) : String := (v.get? p).getD ""

/-- Lookup after inserting an entry in front. -/
theorem vault_get?_cons (e : String × String) (v : Vault) (q : String) :
    Vault.get? (e :: v) q = if e.1 = q then some e.2 else Vault.get? v q := by
  by_cases h : e.1 = q
  · rw [if_pos h]
    unfold Vault.get?
    rw [List.find?_cons_of_pos _ (by simp [h])]
    rfl
  · rw [if_neg h]
    unfold Vault.get?
    rw [List.find?_cons_of_neg _ (by simp [h])]

/-- One unfolding step of `Vault.delete`. -/
theorem vault_delete_cons (e : String × String) (v : Vault) (p : String) :
    Vault.delete (e :: v) p
      = if e.1 = p then Vault.delete v p else e :: Vault.delete v p := by
  by_cases h : e.1 = p
  · rw [if_pos h]
    unfold Vault.delete
    rw [List.filter_cons, if_neg (by simp [h])]
  · rw [if_neg h]
    unfold Vault.delete
    rw [List.filter_cons, if_pos (by simp [h])]

/-- Lookup after a deletion: the deleted path is gone, others are kept. -/
theorem vault_get?_delete (v : Vault) (p q : String) :
    Vault.get? (Vault.delete v p) q = if q = p then none else Vault.get? v q := by
  induction v with
  | nil =>
    simp only [Vault.delete, List.filter_nil, Vault.get?, List.find?_nil, Option.map_none]
    split <;> rfl
  | cons e v ih =>
    rw [vault_delete_cons]
    by_cases hep : e.1 = p
    · rw [if_pos hep, ih, vault_get?_cons]
      by_cases hq : q = p
      · simp [hq]
      · rw [if_neg hq, if_neg hq, if_neg (fun h : e.1 = q => hq (h.symm.trans hep))]
    · rw [if_neg hep, vault_get?_cons, vault_get?_cons]
      by_cases heq : e.1 = q
      · rw [if_pos heq, if_pos heq, if_neg (fun h : q = p => hep (heq.trans h))]
      · rw [if_neg heq, if_neg heq, ih]

/-- A string is empty exactly when its length is zero. -/
theorem string_eq_empty_iff (s : String) : s = "" ↔ s.length = 0 := by
  constructor
  · intro h
    rw [h]
    rfl
  · intro h
    exact String.ext (List.length_eq_zero.mp h ▸ rfl)

/-- The content-accumulating loop of `performMerge`
(`src/main.ts` lines 283-290): starting from `''`, append
`separator + content` for each piece, where `separator` is `'\n\n'`
exactly when the accumulated string is non-empty (JS truthiness of
`mergedContent`). -/
def mergeFold (pieces : List String) : String :=
  pieces.foldl (fun acc c => acc ++ (if acc = "" then "" else "\n\n") ++ c) ""

/-- Pieces joined by a blank line between every two consecutive pieces. -/
def joinBlankLine : List String → String
  | [] => ""
  | [c] => c
  | c :: c' :: rest => c ++ "\n\n" ++ joinBlankLine (c' :: rest)

/-- The separator rule exactly as the claim words it: a blank line
between consecutive non-empty pieces, nothing elsewhere. -/
def specSeparatedConcat : List String → String
  | [] => ""
  | [c] => c
  | c :: c' :: rest =>
    c ++ (if c ≠ "" ∧ c' ≠ "" then "\n\n" else "") ++ specSeparatedConcat (c' :: rest)

/-- Prepending to the head of a blank-line join re-associates. -/
theorem joinBlankLine_cons_append (a c : String) (rest : List String) :
    joinBlankLine ((a ++ "\n\n" ++ c) :: rest) = a ++ "\n\n" ++ joinBlankLine (c :: rest) := by
  cases rest with
  | nil => rfl
  | cons r rs =>
    show (a ++ "\n\n" ++ c) ++ "\n\n" ++ joinBlankLine (r :: rs)
        = a ++ "\n\n" ++ (c ++ "\n\n" ++ joinBlankLine (r :: rs))
    simp [String.append_assoc]

/-- The accumulating loop, started from a non-empty accumulator, joins
everything with blank lines. -/
theorem mergeFold_go (ps : List String) (acc : String) (hacc : acc ≠ "") :
    ps.foldl (fun acc c => acc ++ (if acc = "" then "" else "\n\n") ++ c) acc
      = joinBlankLine (acc :: ps) := by
  induction ps generalizing acc with
  | nil => rfl
  | cons c rest ih =>
    show List.foldl _ (acc ++ (if acc = "" then "" else "\n\n") ++ c) rest = _
    rw [if_neg hacc]
    have hne : acc ++ "\n\n" ++ c ≠ "" := by
      intro h
      rw [string_eq_empty_iff, String.length_append, String.length_append] at h
      have : acc.length ≠ 0 := fun h0 => hacc ((string_eq_empty_iff acc).mpr h0)
      omega
    rw [ih _ hne, joinBlankLine_cons_append]
    rfl

/-- When the first piece is non-empty, the loop inserts a blank line
before every following piece: the result is the blank-line join. -/
theorem mergeFold_eq_joinBlankLine (c : String) (ps : List String) (hc : c ≠ "") :
    mergeFold (c :: ps) = joinBlankLine (c :: ps) := by
  unfold mergeFold
  show List.foldl _ ("" ++ (if ("" : String) = "" then "" else "\n\n") ++ c) ps = _
  rw [if_pos rfl]
  have h0 : ("" : String) ++ "" ++ c = c := by simp
  rw [h0, mergeFold_go ps c hc]

/-- The deletion loop of `performMerge` (`src/main.ts` lines 294-296)
inside the surrounding `try`: delete each path in order; a failing
deletion (modelled by the fault set `deleteFails`) throws, aborting the
loop and reporting which path failed. -/
def deleteRun (v : Vault) (paths : List String) (deleteFails : String → Bool) :
    Vault × Option String :=
  match paths with
  | [] => (v, none)
  | p :: rest =>
    if deleteFails p then (v, some p)
    else deleteRun (Vault.delete v p) rest deleteFails

/-- The path of the merged note, `inboxFolder/<name>.md`. -/
def mergedPathOf (inboxFolder mergedFileName : String) : String :=
  inboxFolder ++ "/" ++ mergedFileName ++ ".md"

/-- The content `performMerge` builds: the selected notes' contents in
ascending name order, accumulated by `mergeFold`. -/
def mergedContentOf (v : Vault) (selected : List VFile) : String :=
  mergeFold ((sortByName selected).map (fun f => vaultRead v f.path))

/-- `MarcoModePlugin.performMerge` (`src/main.ts` lines 269-305):
reject fewer than 2 files, reject an occupied target path, otherwise
build the merged content over the name-sorted selection (note
`selectedFiles.sort` mutates, so the deletion loop also runs in sorted
order), create the merged note, then delete the originals one by one;
any thrown step lands in the single `catch`, which only shows a notice.
Returns the final vault and the notices shown. -/
def performMerge (v : Vault) (inboxFolder : String) (selected : List VFile)
    (mergedFileName : String) (deleteFails : String → Bool) : Vault × List String :=
  if selected.length < 2 then (v, ["Please select at least 2 files to merge"])
  else if (v.get? (mergedPathOf inboxFolder mergedFileName)).isSome then
    (v, ["A file with that name already exists. Please choose a different name."])
  else
    match v.create (mergedPathOf inboxFolder mergedFileName) (mergedContentOf v selected) with
    | none => (v, ["Failed to merge files"])
    | some v1 =>
      match deleteRun v1 ((sortByName selected).map VFile.path) deleteFails with
      | (v2, none) => (v2, ["Successfully merged files"])
      | (v2, some _) => (v2, ["Failed to merge files"])

/-- A missing path stays missing through the deletion loop. -/
theorem deleteRun_get?_none (paths : List String) (v : Vault) (fails : String → Bool)
    (q : String) (hq : Vault.get? v q = none) :
    Vault.get? (deleteRun v paths fails).1 q = none := by
  induction paths generalizing v with
  | nil => exact hq
  | cons p rest ih =>
    unfold deleteRun
    by_cases hf : fails p = true
    · rw [if_pos hf]
      exact hq
    · rw [if_neg hf]
      refine ih _ ?_
      rw [vault_get?_delete]
      by_cases h : q = p
      · rw [if_pos h]
      · rw [if_neg h]
        exact hq

/-- When no listed deletion fails, the loop completes with no failure,
removes exactly the listed paths, and leaves every other path intact. -/
theorem deleteRun_no_fail (paths : List String) (v : Vault) (fails : String → Bool)
    (hok : ∀ p ∈ paths, fails p = false) :
    (deleteRun v paths fails).2 = none ∧
    (∀ q, q ∉ paths → Vault.get? (deleteRun v paths fails).1 q = Vault.get? v q) ∧
    (∀ q ∈ paths, Vault.get? (deleteRun v paths fails).1 q = none) := by
  induction paths generalizing v with
  | nil => exact ⟨rfl, fun q _ => rfl, fun q hq => absurd hq (List.not_mem_nil q)⟩
  | cons p rest ih =>
    have hf : fails p = false := hok p (List.mem_cons_self p rest)
    unfold deleteRun
    rw [if_neg (by simp [hf])]
    obtain ⟨h1, h2, h3⟩ := ih (Vault.delete v p)
      (fun q hq => hok q (List.mem_cons_of_mem p hq))
    refine ⟨h1, ?_, ?_⟩
    · intro q hq
      rw [h2 q (fun h => hq (List.mem_cons_of_mem p h)), vault_get?_delete,
        if_neg (fun h => hq (by rw [h]; exact List.mem_cons_self p rest))]
    · intro q hq
      rcases List.mem_cons.mp hq with h | h
      · subst h
        exact deleteRun_get?_none rest _ fails q (by rw [vault_get?_delete, if_pos rfl])
      · exact h3 q h

/-- The deletion loop stops at the first failing path: the paths before
it are deleted in order, the failure is reported, and nothing after the
failing path is touched. -/
theorem deleteRun_stops (ps₁ : List String) (pf : String) (ps₂ : List String)
    (v : Vault) (fails : String → Bool)
    (hok : ∀ p ∈ ps₁, fails p = false) (hf : fails pf = true) :
    deleteRun v (ps₁ ++ pf :: ps₂) fails = (ps₁.foldl Vault.delete v, some pf) := by
  induction ps₁ generalizing v with
  | nil =>
    rw [List.nil_append, List.foldl_nil]
    unfold deleteRun
    rw [if_pos hf]
  | cons p rest ih =>
    rw [List.cons_append, List.foldl_cons]
    unfold deleteRun
    rw [if_neg (by simp [hok p (List.mem_cons_self p rest)])]
    exact ih _ (fun q hq => hok q (List.mem_cons_of_mem p hq))

/-- Paths not in the folded deletion list keep their content. -/
theorem foldl_delete_get? (ps : List String) (v : Vault) (q : String) (hq : q ∉ ps) :
    Vault.get? (ps.foldl Vault.delete v) q = Vault.get? v q := by
  induction ps generalizing v with
  | nil => rfl
  | cons p rest ih =>
    rw [List.foldl_cons, ih _ (fun h => hq (List.mem_cons_of_mem p h)), vault_get?_delete,
      if_neg (fun h => hq (by rw [h]; exact List.mem_cons_self p rest))]

/-- A missing path stays missing through folded deletions. -/
theorem foldl_delete_none (ps : List String) (v : Vault) (q : String)
    (hq : Vault.get? v q = none) :
    Vault.get? (ps.foldl Vault.delete v) q = none := by
  induction ps generalizing v with
  | nil => exact hq
  | cons p rest ih =>
    rw [List.foldl_cons]
    refine ih _ ?_
    rw [vault_get?_delete]
    by_cases h : q = p
    · rw [if_pos h]
    · rw [if_neg h]
      exact hq

/-- Every path in the folded deletion list ends up missing. -/
theorem foldl_delete_deletes (ps : List String) (v : Vault) (q : String) (hq : q ∈ ps) :
    Vault.get? (ps.foldl Vault.delete v) q = none := by
  induction ps generalizing v with
  | nil => exact absurd hq (List.not_mem_nil q)
  | cons p rest ih =>
    rw [List.foldl_cons]
    rcases List.mem_cons.mp hq with h | h
    · subst h
      exact foldl_delete_none rest _ q (by rw [vault_get?_delete, if_pos rfl])
    · exact ih _ h

/-- C4 (amended): a merge of at least 2 existing notes into a free
target path creates the merged note whose content is the accumulator
result `mergedContentOf` (a blank line before each piece added once the
accumulated content is non-empty), reports success, and deletes every
selected note; and whenever every selected content is non-empty this
content is exactly the contents in ascending name order joined by blank
lines. -/
theorem performMerge_content (v : Vault) (inboxFolder : String) (selected : List VFile)
    (name : String)
    (h2 : 2 ≤ selected.length)
    (hfree : v.get? (mergedPathOf inboxFolder name) = none)
    (hexist : ∀ f ∈ selected, (v.get? f.path).isSome = true) :
    (performMerge v inboxFolder selected name (fun _ => false)).1.get?
        (mergedPathOf inboxFolder name) = some (mergedContentOf v selected) ∧
    (performMerge v inboxFolder selected name (fun _ => false)).2
        = ["Successfully merged files"] ∧
    (∀ f ∈ selected,
      (performMerge v inboxFolder selected name (fun _ => false)).1.get? f.path = none) ∧
    ((∀ f ∈ selected, vaultRead v f.path ≠ "") →
      mergedContentOf v selected
        = joinBlankLine ((sortByName selected).map (fun f => vaultRead v f.path))) := by
  have hperm : (sortByName selected).Perm selected :=
    List.perm_insertionSort (fun a b => nameLe a b = true) selected
  have hnotin : mergedPathOf inboxFolder name ∉ (sortByName selected).map VFile.path := by
    intro hmem
    obtain ⟨f, hf, hfp⟩ := List.mem_map.mp hmem
    have hs := hexist f (hperm.mem_iff.mp hf)
    rw [hfp, hfree] at hs
    simp at hs
  have hcreate : Vault.create v (mergedPathOf inboxFolder name) (mergedContentOf v selected)
      = some ((mergedPathOf inboxFolder name, mergedContentOf v selected) :: v) := by
    unfold Vault.create
    rw [if_neg (by simp [hfree])]
  obtain ⟨hsnd, hkeep, hdel⟩ := deleteRun_no_fail ((sortByName selected).map VFile.path)
    ((mergedPathOf inboxFolder name, mergedContentOf v selected) :: v) (fun _ => false)
    (fun p _ => rfl)
  rcases hru : deleteRun ((mergedPathOf inboxFolder name, mergedContentOf v selected) :: v)
      ((sortByName selected).map VFile.path) (fun _ => false) with ⟨v2, res⟩
  rw [hru] at hsnd hkeep hdel
  dsimp only at hsnd hkeep hdel
  subst hsnd
  have hPM : performMerge v inboxFolder selected name (fun _ => false)
      = (v2, ["Successfully merged files"]) := by
    unfold performMerge
    rw [if_neg (by omega), if_neg (by simp [hfree])]
    simp only [hcreate, hru]
  refine ⟨?_, ?_, ?_, ?_⟩
  · rw [hPM]
    dsimp only
    rw [hkeep _ hnotin, vault_get?_cons, if_pos rfl]
  · rw [hPM]
  · intro f hf
    rw [hPM]
    dsimp only
    exact hdel f.path (List.mem_map.mpr ⟨f, hperm.mem_iff.mpr hf, rfl⟩)
  · intro hnonempty
    cases hs : sortByName selected with
    | nil =>
      exfalso
      have hl := hperm.length_eq
      rw [hs] at hl
      simp at hl
      omega
    | cons f fs =>
      unfold mergedContentOf
      rw [hs, List.map_cons]
      apply mergeFold_eq_joinBlankLine
      apply hnonempty
      rw [← hperm.mem_iff, hs]
      exact List.mem_cons_self f fs

/-- C4 witness: merging `a.md -> "A"` and `b.md -> "B"` into `merged`
produces the content `A\n\nB`. -/
theorem performMerge_content_witness :
    (performMerge [("000_inbox/a.md", "A"), ("000_inbox/b.md", "B")] "000_inbox"
        [⟨some "000_inbox", "a.md", "md"⟩, ⟨some "000_inbox", "b.md", "md"⟩]
        "merged" (fun _ => false)).1.get? (mergedPathOf "000_inbox" "merged")
      = some "A\n\nB" := by
  have h := performMerge_content [("000_inbox/a.md", "A"), ("000_inbox/b.md", "B")]
    "000_inbox" [⟨some "000_inbox", "a.md", "md"⟩, ⟨some "000_inbox", "b.md", "md"⟩]
    "merged" (by decide) (by decide) (by decide)
  rw [h.1]
  decide

/-- C4 counterexample: with contents `"A"` and `""` the code produces
`"A\n\n"`, while a blank line only between consecutive non-empty pieces
would give `"A"`; so empty pieces are not handled the way the claim
states. -/
theorem merge_separator_counterexample :
    (performMerge [("000_inbox/a.md", "A"), ("000_inbox/b.md", "")] "000_inbox"
        [⟨some "000_inbox", "a.md", "md"⟩, ⟨some "000_inbox", "b.md", "md"⟩]
        "merged" (fun _ => false)).1.get? (mergedPathOf "000_inbox" "merged")
      = some "A\n\n" ∧
    specSeparatedConcat ["A", ""] = "A" ∧
    ("A\n\n" : String) ≠ "A" := by
  refine ⟨?_, ?_, ?_⟩ <;> decide

/-- C5 (amended): when a deletion fails partway through the merge, the
single `try`/`catch` aborts the loop at the first failing path: the
failure is reported, the merged note stays (no rollback), the sorted
paths before the failing one are deleted, and every other path —
including the failing note and every note after it — is left exactly as
it was (their deletions are never attempted). -/
theorem performMerge_delete_fail (v : Vault) (inboxFolder : String) (selected : List VFile)
    (name : String) (fails : String → Bool)
    (ps₁ : List String) (pf : String) (ps₂ : List String)
    (h2 : 2 ≤ selected.length)
    (hfree : v.get? (mergedPathOf inboxFolder name) = none)
    (hexist : ∀ f ∈ selected, (v.get? f.path).isSome = true)
    (hsplit : (sortByName selected).map VFile.path = ps₁ ++ pf :: ps₂)
    (hok : ∀ p ∈ ps₁, fails p = false)
    (hf : fails pf = true) :
    (performMerge v inboxFolder selected name fails).2 = ["Failed to merge files"] ∧
    (performMerge v inboxFolder selected name fails).1.get?
        (mergedPathOf inboxFolder name) = some (mergedContentOf v selected) ∧
    (∀ q ∈ ps₁, (performMerge v inboxFolder selected name fails).1.get? q = none) ∧
    (∀ q, q ∉ ps₁ → q ≠ mergedPathOf inboxFolder name →
      (performMerge v inboxFolder selected name fails).1.get? q = Vault.get? v q) := by
  have hperm : (sortByName selected).Perm selected :=
    List.perm_insertionSort (fun a b => nameLe a b = true) selected
  have hnotin : mergedPathOf inboxFolder name ∉ (sortByName selected).map VFile.path := by
    intro hmem
    obtain ⟨f, hfm, hfp⟩ := List.mem_map.mp hmem
    have hs := hexist f (hperm.mem_iff.mp hfm)
    rw [hfp, hfree] at hs
    simp at hs
  have hmp₁ : mergedPathOf inboxFolder name ∉ ps₁ := by
    intro hmem
    apply hnotin
    rw [hsplit]
    exact List.mem_append_left _ hmem
  have hcreate : Vault.create v (mergedPathOf inboxFolder name) (mergedContentOf v selected)
      = some ((mergedPathOf inboxFolder name, mergedContentOf v selected) :: v) := by
    unfold Vault.create
    rw [if_neg (by simp [hfree])]
  have hPM : performMerge v inboxFolder selected name fails
      = (ps₁.foldl Vault.delete
          ((mergedPathOf inboxFolder name, mergedContentOf v selected) :: v),
         ["Failed to merge files"]) := by
    unfold performMerge
    rw [if_neg (by omega), if_neg (by simp [hfree])]
    simp only [hcreate, hsplit]
    rw [deleteRun_stops ps₁ pf ps₂ _ fails hok hf]
  refine ⟨by rw [hPM], ?_, ?_, ?_⟩
  · rw [hPM]
    dsimp only
    rw [foldl_delete_get? ps₁ _ _ hmp₁, vault_get?_cons, if_pos rfl]
  · intro q hq
    rw [hPM]
    dsimp only
    exact foldl_delete_deletes ps₁ _ q hq
  · intro q hq hqmp
    rw [hPM]
    dsimp only
    rw [foldl_delete_get? ps₁ _ _ hq, vault_get?_cons, if_neg (fun h => hqmp h.symm)]

/-- C5 witness: with `a.md, b.md, c.md` selected and the deletion of
`b.md` failing, the merge reports failure and keeps the merged note. -/
theorem performMerge_delete_fail_witness :
    (performMerge
        [("000_inbox/a.md", "A"), ("000_inbox/b.md", "B"), ("000_inbox/c.md", "C")]
        "000_inbox"
        [⟨some "000_inbox", "a.md", "md"⟩, ⟨some "000_inbox", "b.md", "md"⟩,
         ⟨some "000_inbox", "c.md", "md"⟩]
        "merged" (fun p => p == "000_inbox/b.md")).2 = ["Failed to merge files"] ∧
    (performMerge
        [("000_inbox/a.md", "A"), ("000_inbox/b.md", "B"), ("000_inbox/c.md", "C")]
        "000_inbox"
        [⟨some "000_inbox", "a.md", "md"⟩, ⟨some "000_inbox", "b.md", "md"⟩,
         ⟨some "000_inbox", "c.md", "md"⟩]
        "merged" (fun p => p == "000_inbox/b.md")).1.get?
        (mergedPathOf "000_inbox" "merged")
      = some (mergedContentOf
          [("000_inbox/a.md", "A"), ("000_inbox/b.md", "B"), ("000_inbox/c.md", "C")]
          [⟨some "000_inbox", "a.md", "md"⟩, ⟨some "000_inbox", "b.md", "md"⟩,
           ⟨some "000_inbox", "c.md", "md"⟩]) := by
  have h := performMerge_delete_fail
    [("000_inbox/a.md", "A"), ("000_inbox/b.md", "B"), ("000_inbox/c.md", "C")]
    "000_inbox"
    [⟨some "000_inbox", "a.md", "md"⟩, ⟨some "000_inbox", "b.md", "md"⟩,
     ⟨some "000_inbox", "c.md", "md"⟩]
    "merged" (fun p => p == "000_inbox/b.md")
    ["000_inbox/a.md"] "000_inbox/b.md" ["000_inbox/c.md"]
    (by decide) (by decide) (by decide) (by decide) (by decide) (by decide)
  exact ⟨h.1, h.2.1⟩

/-- C5 counterexample: in the same failing run, `a.md` (before the
failure) is deleted, but `c.md` (after the failing `b.md`) survives with
its content — its deletion, which would have succeeded, was never
attempted, contrary to the claimed best-effort continuation. -/
theorem merge_deletion_abort_counterexample :
    (performMerge
        [("000_inbox/a.md", "A"), ("000_inbox/b.md", "B"), ("000_inbox/c.md", "C")]
        "000_inbox"
        [⟨some "000_inbox", "a.md", "md"⟩, ⟨some "000_inbox", "b.md", "md"⟩,
         ⟨some "000_inbox", "c.md", "md"⟩]
        "merged" (fun p => p == "000_inbox/b.md")).1.get? "000_inbox/c.md" = some "C" ∧
    (performMerge
        [("000_inbox/a.md", "A"), ("000_inbox/b.md", "B"), ("000_inbox/c.md", "C")]
        "000_inbox"
        [⟨some "000_inbox", "a.md", "md"⟩, ⟨some "000_inbox", "b.md", "md"⟩,
         ⟨some "000_inbox", "c.md", "md"⟩]
        "merged" (fun p => p == "000_inbox/b.md")).1.get? "000_inbox/a.md" = none ∧
    (performMerge
        [("000_inbox/a.md", "A"), ("000_inbox/b.md", "B"), ("000_inbox/c.md", "C")]
        "000_inbox"
        [⟨some "000_inbox", "a.md", "md"⟩, ⟨some "000_inbox", "b.md", "md"⟩,
         ⟨some "000_inbox", "c.md", "md"⟩]
        "merged" (fun p => p == "000_inbox/b.md")).1.get?
        (mergedPathOf "000_inbox" "merged") = some "A\n\nB\n\nC" := by
  refine ⟨?_, ?_, ?_⟩ <;> decide

/-- The plugin settings record (`src/main.ts` lines 3-19). -/
structure Settings where
  inboxFolder : String
  dailyNotesFolder : String
  timestampFormat : String
  lastImportDate : String
  dummySetting : String
  enableDailyNoteCheck : Bool
deriving DecidableEq

/-- Plugin state for the import workflow: the vault, the in-memory
settings, and the settings object last persisted by `saveSettings`. -/
structure ImportState where
  vault : Vault
  settings : Settings
  saved : Settings
deriving DecidableEq

/-- The daily-note path for a date, `dailyNotesFolder/<date>.md`. -/
def dailyPathOf (s : Settings) (date : String) : String :=
  s.dailyNotesFolder ++ "/" ++ date ++ ".md"

/-- The inbox path for a timestamp, `inboxFolder/<timestamp>.md`. -/
def inboxPathOf (s : Settings) (timestamp : String) : String :=
  s.inboxFolder ++ "/" ++ timestamp ++ ".md"

/-- `MarcoModePlugin.todaysDailyNoteHasContent` (`src/main.ts` lines
218-227): today's daily note exists and its trimmed content is
non-empty. -/
def todaysDailyNoteHasContent (v : Vault) (s : Settings) (today : String) : Bool :=
  match v.get? (dailyPathOf s today) with
  | none => false
  | some content => decide (0 < (strTrim content).length)

/-- `MarcoModePlugin.importDailyNote` (`src/main.ts` lines 229-255):
read today's daily note (silently return when absent or blank after
trimming), create the inbox note at `inboxFolder/<timestamp>.md` holding
the full content, then clear the daily note, set `lastImportDate` to
today and persist the settings; a failing `create` throws into the
`catch`, which only logs, so none of the later steps run. The date
string and formatted timestamp come from the host clock and are taken as
parameters. -/
def importDailyNote (st : ImportState) (today timestamp : String) : ImportState :=
  match st.vault.get? (dailyPathOf st.settings today) with
  | none => st
  | some content =>
    if strTrim content = "" then st
    else
      match st.vault.create (inboxPathOf st.settings timestamp) content with
      | none => st
      | some v1 =>
        let v2 := v1.modify (dailyPathOf st.settings today) ""
        let s2 := { st.settings with lastImportDate := today }
        { vault := v2, settings := s2, saved := s2 }

/-- `MarcoModePlugin.checkAndImportDailyNote` (`src/main.ts` lines
142-155) together with `ImportConfirmModal`: the prompt opens iff the
daily note has content and `lastImportDate` differs from today's date;
accepting runs `importDailyNote`, cancelling only closes the modal.
Returns the resulting state and whether the prompt was shown. -/
def checkAndImport (st : ImportState) (today timestamp : String) (accept : Bool) :
    ImportState × Bool :=
  let hasReminders := todaysDailyNoteHasContent st.vault st.settings today
  let alreadyImportedToday := st.settings.lastImportDate == today
  if hasReminders && !alreadyImportedToday then
    (if accept then importDailyNote st today timestamp else st, true)
  else (st, false)

/-- The content check holds exactly when the daily note exists with
non-empty trimmed content. -/
theorem hasContent_iff (v : Vault) (s : Settings) (today : String) :
    todaysDailyNoteHasContent v s today = true ↔
      ∃ c, v.get? (dailyPathOf s today) = some c ∧ strTrim c ≠ "" := by
  unfold todaysDailyNoteHasContent
  cases hg : v.get? (dailyPathOf s today) with
  | none => simp
  | some c =>
    simp only [decide_eq_true_eq]
    constructor
    · intro h
      refine ⟨c, rfl, fun he => ?_⟩
      rw [(string_eq_empty_iff _).mp he] at h
      exact Nat.lt_irrefl 0 h
    · rintro ⟨c', hc', hne⟩
      cases Option.some.inj hc'
      exact Nat.pos_of_ne_zero (fun h0 => hne ((string_eq_empty_iff _).mpr h0))

/-- C6: the startup auto-check shows the import prompt iff today's daily
note exists with non-empty trimmed content and `lastImportDate` differs
from today's date; in particular no prompt when `lastImportDate` already
equals today, and cancelling the prompt changes nothing — neither the
vault nor the settings (so `lastImportDate` is untouched). -/
theorem autoCheck_spec (st : ImportState) (today timestamp : String) (accept : Bool) :
    ((checkAndImport st today timestamp accept).2 = true ↔
      ((∃ c, st.vault.get? (dailyPathOf st.settings today) = some c ∧ strTrim c ≠ "") ∧
        st.settings.lastImportDate ≠ today)) ∧
    (st.settings.lastImportDate = today →
      (checkAndImport st today timestamp accept).2 = false) ∧
    (accept = false → (checkAndImport st today timestamp accept).1 = st) := by
  unfold checkAndImport
  by_cases hc : (todaysDailyNoteHasContent st.vault st.settings today
      && !(st.settings.lastImportDate == today)) = true
  · rw [if_pos hc]
    simp only [Bool.and_eq_true, Bool.not_eq_true', beq_eq_false_iff_ne] at hc
    obtain ⟨h1, h2⟩ := hc
    refine ⟨⟨fun _ => ⟨(hasContent_iff _ _ _).mp h1, h2⟩, fun _ => rfl⟩, ?_, ?_⟩
    · intro heq
      exact absurd heq h2
    · intro ha
      rw [ha]
      rfl
  · rw [if_neg hc]
    simp only [Bool.and_eq_true, Bool.not_eq_true', beq_eq_false_iff_ne, not_and] at hc
    refine ⟨?_, fun _ => rfl, fun _ => rfl⟩
    constructor
    · intro h
      exact absurd h (by simp)
    · rintro ⟨hex, hne⟩
      exact absurd hne (by simpa using hc ((hasContent_iff _ _ _).mpr hex))

/-- C9: when creating the inbox note fails (a note already exists at the
timestamped path), `importDailyNote` leaves the whole state unchanged:
the daily note keeps its content (it is not cleared), `lastImportDate`
keeps its old value, and nothing is persisted — the clearing and the
marker update happen only after the creation succeeds. -/
theorem importDailyNote_create_fail (st : ImportState) (today timestamp : String)
    (hcol : (st.vault.get? (inboxPathOf st.settings timestamp)).isSome = true) :
    importDailyNote st today timestamp = st := by
  unfold importDailyNote
  cases hg : st.vault.get? (dailyPathOf st.settings today) with
  | none => rfl
  | some content =>
    dsimp only
    by_cases ht : strTrim content = ""
    · rw [if_pos ht]
    · rw [if_neg ht]
      have hcr : st.vault.create (inboxPathOf st.settings timestamp) content = none := by
        unfold Vault.create
        rw [if_pos hcol]
      rw [hcr]

/-- C9 witness: with today's daily note non-empty and the timestamped
inbox path already occupied, the import is a no-op. -/
theorem importDailyNote_create_fail_witness :
    importDailyNote
      ⟨[("001_journal/2024-03-15.md", "todo"), ("000_inbox/Fri 10 00 00.md", "old")],
       ⟨"000_inbox", "001_journal", "ddd HH mm ss", "", "", true⟩,
       ⟨"000_inbox", "001_journal", "ddd HH mm ss", "", "", true⟩⟩
      "2024-03-15" "Fri 10 00 00"
    = ⟨[("001_journal/2024-03-15.md", "todo"), ("000_inbox/Fri 10 00 00.md", "old")],
       ⟨"000_inbox", "001_journal", "ddd HH mm ss", "", "", true⟩,
       ⟨"000_inbox", "001_journal", "ddd HH mm ss", "", "", true⟩⟩ :=
  importDailyNote_create_fail _ "2024-03-15" "Fri 10 00 00" (by decide)

/-- C6 witness: with today's daily note non-empty but `lastImportDate`
already equal to today's date, no prompt is shown. -/
theorem autoCheck_spec_witness :
    (checkAndImport
      ⟨[("001_journal/2024-03-15.md", "todo")],
       ⟨"000_inbox", "001_journal", "ddd HH mm ss", "2024-03-15", "", true⟩,
       ⟨"000_inbox", "001_journal", "ddd HH mm ss", "2024-03-15", "", true⟩⟩
      "2024-03-15" "Fri 10 00 00" true).2 = false :=
  (autoCheck_spec _ "2024-03-15" "Fri 10 00 00" true).2.1 (by decide)
